import Mathlib

/-!
Verification of the claude-mac-sync watch daemon core (Rust sources under
src/watch/src) against its natural-language specification.  The Rust code is
shallowly embedded: filesystems become association lists from paths to
contents, `std::time::Instant` becomes `Rat`, machine integers become
`Nat`/`Int`, serde_json serialization is modelled at the JSON-value level
(serde_json's text layer is an external bijection between JSON values and
strings), and fallible Rust functions return `Except`/`Option`.
-/

namespace ClaudeSync

/-- A path is a list of components, mirroring `std::path::PathBuf`.
`join` is list append of a component; `starts_with` is component-wise. -/
abbrev Path := List String

/-- Component-wise path comparison mirroring Rust `Path::starts_with`:
`pathStartsWith base p` is true when `base` is an initial segment of `p`. -/
def pathStartsWith : Path → Path → Bool
  | [], _ => true
  | _ :: _, [] => false
  | a :: as, b :: bs => a = b && pathStartsWith as bs

/-- Association-list lookup, modelling `HashMap::get` (first matching key). -/
def lookupA [DecidableEq α] : List (α × β) → α → Option β
  | [], _ => none
  | (k, v) :: rest, a => if k = a then some v else lookupA rest a

/-- Association-list insert-or-replace, modelling `HashMap::insert`. -/
def insertA [DecidableEq α] : List (α × β) → α → β → List (α × β)
  | [], a, b => [(a, b)]
  | (k, v) :: rest, a, b => if k = a then (a, b) :: rest else (k, v) :: insertA rest a b

/-- Association-list key removal, modelling `fs::remove_file` on the flat
filesystem map. -/
def eraseA [DecidableEq α] : List (α × β) → α → List (α × β)
  | [], _ => []
  | (k, v) :: rest, a => if k = a then eraseA rest a else (k, v) :: eraseA rest a

theorem lookupA_insertA_self [DecidableEq α] (l : List (α × β)) (a : α) (b : β) :
    lookupA (insertA l a b) a = some b := by
  induction l with
  | nil => simp [insertA, lookupA]
  | cons kv rest ih =>
    obtain ⟨k, v⟩ := kv
    by_cases h : k = a
    · simp [insertA, lookupA, h]
    · simp [insertA, lookupA, h, ih]

theorem lookupA_insertA_ne [DecidableEq α] (l : List (α × β)) (a c : α) (b : β)
    (h : a ≠ c) : lookupA (insertA l a b) c = lookupA l c := by
  induction l with
  | nil => simp [insertA, lookupA, h]
  | cons kv rest ih =>
    obtain ⟨k, v⟩ := kv
    by_cases hk : k = a
    · subst hk
      simp [insertA, lookupA, h]
    · by_cases hc : k = c
      · subst hc
        simp [insertA, lookupA, hk]
      · simp [insertA, lookupA, hk, hc, ih]

theorem lookupA_eraseA_self [DecidableEq α] (l : List (α × β)) (a : α) :
    lookupA (eraseA l a) a = none := by
  induction l with
  | nil => simp [eraseA, lookupA]
  | cons kv rest ih =>
    obtain ⟨k, v⟩ := kv
    by_cases h : k = a
    · simp [eraseA, h, ih]
    · simp [eraseA, lookupA, h, ih]

theorem keys_insertA [DecidableEq α] (l : List (α × β)) (a : α) (b : β) (c : α) :
    (c ∈ (insertA l a b).map Prod.fst) ↔ (c ∈ l.map Prod.fst ∨ c = a) := by
  induction l with
  | nil => simp [insertA]
  | cons kv rest ih =>
    obtain ⟨k, v⟩ := kv
    by_cases h : k = a <;> simp [insertA, h, ih] <;> tauto

theorem nodupKeys_insertA [DecidableEq α] (l : List (α × β)) (a : α) (b : β)
    (h : (l.map Prod.fst).Nodup) : ((insertA l a b).map Prod.fst).Nodup := by
  induction l with
  | nil => simp [insertA]
  | cons kv rest ih =>
    obtain ⟨k, v⟩ := kv
    simp only [List.map_cons, List.nodup_cons] at h
    by_cases hk : k = a
    · subst hk
      simpa [insertA, List.nodup_cons] using h
    · simp only [insertA, if_neg hk, List.map_cons, List.nodup_cons]
      refine ⟨?_, ih h.2⟩
      intro hmem
      rcases (keys_insertA rest a b k).mp hmem with h2 | h2
      · exact h.1 h2
      · exact hk h2

theorem mem_insertA_eq [DecidableEq α] (l : List (α × β)) (a : α) (b b' : β)
    (hnd : (l.map Prod.fst).Nodup) (hmem : (a, b') ∈ insertA l a b) : b' = b := by
  induction l with
  | nil => simpa [insertA] using hmem
  | cons kv rest ih =>
    obtain ⟨k, v⟩ := kv
    simp only [List.map_cons, List.nodup_cons] at hnd
    by_cases hk : k = a
    · subst hk
      simp [insertA] at hmem
      rcases hmem with h1 | h1
      · exact h1
      · exact absurd (List.mem_map_of_mem Prod.fst h1) hnd.1
    · simp only [insertA, if_neg hk, List.mem_cons] at hmem
      rcases hmem with h1 | h1
      · exact absurd (congrArg Prod.fst h1).symm hk
      · exact ih hnd.2 h1

/-! ## File state model (src/watch/src/state.rs) -/

/-- State of a single file: `FileState` in state.rs (SHA-256 hex digest,
mtime as Unix seconds `i64`, size in bytes `u64`). -/
structure FileState where
  sha256 : String
  mtime : Int
  size : Nat
  deriving DecidableEq, Repr

/-- Persisted sync state: `SyncState` in state.rs.  `last_sync` is
`DateTime<Utc>` in Rust, modelled as an integer timestamp (chrono's serde
round-trips the instant exactly); `files` is a `HashMap<String, FileState>`,
modelled as an association list whose well-formedness is key uniqueness. -/
structure SyncState where
  version : Nat
  machine_id : String
  last_sync : Int
  files : List (String × FileState)
  deriving DecidableEq, Repr

/-- The `Default` impl for `SyncState`: version 1, empty machine id,
`last_sync = Utc::now()` (the current instant is a parameter), no files. -/
def SyncState.defaultState (now : Int) : SyncState :=
  { version := 1, machine_id := "", last_sync := now, files := [] }

/-- HashMap key uniqueness, the well-formedness invariant of a `SyncState`. -/
def SyncState.wellFormed (s : SyncState) : Prop :=
  (s.files.map Prod.fst).Nodup

/-! ## JSON documents (serde_json modelled at the value level) -/

/-- JSON values as produced and consumed by serde_json. -/
inductive Json where
  | null : Json
  | bool (b : Bool) : Json
  | num (n : Int) : Json
  | str (s : String) : Json
  | arr (xs : List Json) : Json
  | obj (kvs : List (String × Json)) : Json

/-- Serialization of a `FileState` by its serde derive: an object with the
fields in declaration order. -/
def FileState.toJson (f : FileState) : Json :=
  Json.obj [("sha256", Json.str f.sha256), ("mtime", Json.num f.mtime),
            ("size", Json.num (Int.ofNat f.size))]

/-- Deserialization of a `FileState` by its serde derive: requires the three
fields with the right shapes (`size` is unsigned). -/
def fileStateFromJson : Json → Except String FileState
  | Json.obj kvs =>
    match lookupA kvs "sha256", lookupA kvs "mtime", lookupA kvs "size" with
    | some (Json.str s), some (Json.num m), some (Json.num sz) =>
      if 0 ≤ sz then Except.ok { sha256 := s, mtime := m, size := sz.toNat }
      else Except.error "invalid size"
    | _, _, _ => Except.error "invalid FileState"
  | _ => Except.error "expected object"

/-- Serialization of the `files` map: a JSON object with one member per
entry, in map iteration order. -/
def filesToJson (fl : List (String × FileState)) : List (String × Json) :=
  fl.map (fun kv => (kv.1, FileState.toJson kv.2))

/-- Deserialization of the `files` map: every member must decode. -/
def filesFromJson : List (String × Json) → Except String (List (String × FileState))
  | [] => Except.ok []
  | (k, v) :: rest =>
    match fileStateFromJson v, filesFromJson rest with
    | Except.ok f, Except.ok fs => Except.ok ((k, f) :: fs)
    | Except.error e, _ => Except.error e
    | _, Except.error e => Except.error e

/-- Serialization of a `SyncState` by its serde derive. -/
def SyncState.toJson (s : SyncState) : Json :=
  Json.obj [("version", Json.num (Int.ofNat s.version)),
            ("machine_id", Json.str s.machine_id),
            ("last_sync", Json.num s.last_sync),
            ("files", Json.obj (filesToJson s.files))]

/-- Deserialization of a `SyncState` by its serde derive (`version` is
unsigned). -/
def syncStateFromJson : Json → Except String SyncState
  | Json.obj kvs =>
    match lookupA kvs "version", lookupA kvs "machine_id",
          lookupA kvs "last_sync", lookupA kvs "files" with
    | some (Json.num v), some (Json.str m), some (Json.num t), some (Json.obj fkvs) =>
      if 0 ≤ v then
        match filesFromJson fkvs with
        | Except.ok fl =>
          Except.ok { version := v.toNat, machine_id := m, last_sync := t, files := fl }
        | Except.error e => Except.error e
      else Except.error "invalid version"
    | _, _, _, _ => Except.error "invalid SyncState"
  | _ => Except.error "expected object"

/-- A document store: which JSON document (if any) sits at each path.
Models the filesystem as seen by `SyncState::load`/`SyncState::save`. -/
abbrev DocStore := List (Path × Json)

/-- `SyncState::load` (state.rs lines 50-60): an absent document yields the
default state; a present document must parse, and a parse failure is an
error.  `now` stands for `Utc::now()` inside `Default::default()`. -/
def loadState (store : DocStore) (p : Path) (now : Int) : Except String SyncState :=
  match lookupA store p with
  | none => Except.ok (SyncState.defaultState now)
  | some j => syncStateFromJson j

/-- `SyncState::save` (state.rs lines 63-71): serialize and write the
document at the path (parent-directory creation is a no-op on the flat
store). -/
def saveState (store : DocStore) (p : Path) (s : SyncState) : DocStore :=
  insertA store p s.toJson

/-- The state actually used by a sync pass (sync.rs line 76):
`SyncState::load(&self.state_path).unwrap_or_default()` — any load error is
silently replaced by the default state. -/
def syncPassLoadedState (store : DocStore) (p : Path) (now : Int) : SyncState :=
  match loadState store p now with
  | Except.ok s => s
  | Except.error _ => SyncState.defaultState now

/-! ## Change detection (state.rs, detect_changes and scan_directory_changes) -/

/-- Kind of a detected change: `ChangeType` in state.rs. -/
inductive ChangeType where
  | Created : ChangeType
  | Modified : ChangeType
  | Deleted : ChangeType
  deriving DecidableEq, Repr

/-- A detected change: `Change` in state.rs. -/
structure Change where
  rel_path : String
  change_type : ChangeType
  src : Path
  dst : Path
  deriving DecidableEq, Repr

/-- A directory tree as observed by the detector: each regular file is
summarized by its observable `FileState` (what `current_file_state`
computes), and each directory lists its entries in iteration order. -/
inductive FsTree where
  | file (st : FileState) : FsTree
  | dir (entries : List (String × FsTree)) : FsTree

/-- Directory contents: named entries in `read_dir` iteration order. -/
abbrev Entries := List (String × FsTree)

/-- Model of `SyncState::current_file_state(root.join(name))`: `some` only
when the entry exists and is a regular file. -/
def treeLookupFile (es : Entries) (name : String) : Option FileState :=
  match lookupA es name with
  | some (FsTree.file st) => some st
  | _ => none

/-- Contents of a subdirectory when it exists and is a directory; a missing
or non-directory entry reads as empty (every file probe under it is
absent, exactly as on the real filesystem). -/
def dirEntriesOf (es : Entries) (name : String) : Entries :=
  match lookupA es name with
  | some (FsTree.dir sub) => sub
  | _ => []

/-- Whether a string contains a path separator. -/
def hasSlash (s : String) : Bool := s.data.any (fun c => c = '/')

/-- Model of `scan_directory_changes` (state.rs lines 264-329): walk the
source entries, skip hidden names, emit `Created`/`Modified` records for
files, recurse into directories, deduplicate by relative path against all
previously accumulated records.  The `state` argument is threaded through
exactly as in the Rust signature. -/
def scanGo (localIsSrc : Bool) (state : SyncState) :
    String → Path → Path → Entries → Entries → List Change → List Change
  | _, _, _, [], _, changes => changes
  | pre, srcPath, dstPath, (name, t) :: rest, dstEs, changes =>
    let changes1 :=
      if name.startsWith "." then changes
      else
        match t with
        | FsTree.file st =>
          let relPath := pre ++ "/" ++ name
          let dstState := treeLookupFile dstEs name
          let shouldAdd :=
            match dstState with
            | none => true
            | some d =>
              if st.sha256 ≠ d.sha256 then
                if localIsSrc then decide (d.mtime < st.mtime)
                else decide (d.mtime < st.mtime)
              else false
          if shouldAdd && ! changes.any (fun c => decide (c.rel_path = relPath)) then
            changes ++ [{ rel_path := relPath,
                          change_type := if dstState.isSome then ChangeType.Modified
                                         else ChangeType.Created,
                          src := srcPath ++ [name], dst := dstPath ++ [name] }]
          else changes
        | FsTree.dir sub =>
          scanGo localIsSrc state (pre ++ "/" ++ name) (srcPath ++ [name])
            (dstPath ++ [name]) sub (dirEntriesOf dstEs name) changes
    scanGo localIsSrc state pre srcPath dstPath rest dstEs changes1
  termination_by _ _ _ es _ _ => sizeOf es

/-- The records contributed by one tracked file name (the per-name body of
the first loop of `detect_changes`, state.rs lines 177-230). -/
def fileRecsFor (localDir remoteDir : Path) (localFs remoteFs : Entries)
    (name : String) : List Change :=
  match treeLookupFile localFs name, treeLookupFile remoteFs name with
  | some l, some r =>
    if l.sha256 ≠ r.sha256 then
      if r.mtime < l.mtime then
        [{ rel_path := name, change_type := ChangeType.Modified,
           src := localDir ++ [name], dst := remoteDir ++ [name] }]
      else if l.mtime < r.mtime then
        [{ rel_path := name, change_type := ChangeType.Modified,
           src := remoteDir ++ [name], dst := localDir ++ [name] }]
      else []
    else []
  | some _, none =>
    [{ rel_path := name, change_type := ChangeType.Created,
       src := localDir ++ [name], dst := remoteDir ++ [name] }]
  | none, some _ =>
    [{ rel_path := name, change_type := ChangeType.Created,
       src := remoteDir ++ [name], dst := localDir ++ [name] }]
  | none, none => []

/-- The tracked-files loop of `detect_changes`, in list order. -/
def detectFileChanges (localDir remoteDir : Path) (localFs remoteFs : Entries) :
    List String → List Change
  | [] => []
  | name :: rest =>
    fileRecsFor localDir remoteDir localFs remoteFs name ++
      detectFileChanges localDir remoteDir localFs remoteFs rest

/-- The tracked-directories loop of `detect_changes` (state.rs lines
233-258): for each tracked directory that exists, walk it once with local
as source and once with remote as source, accumulating into the same
record list. -/
def detectDirChanges (localDir remoteDir : Path) (localFs remoteFs : Entries)
    (state : SyncState) : List String → List Change → List Change
  | [], changes => changes
  | d :: rest, changes =>
    let c1 :=
      match lookupA localFs d with
      | some (FsTree.dir sub) =>
        scanGo true state d (localDir ++ [d]) (remoteDir ++ [d]) sub
          (dirEntriesOf remoteFs d) changes
      | _ => changes
    let c2 :=
      match lookupA remoteFs d with
      | some (FsTree.dir sub) =>
        scanGo false state d (remoteDir ++ [d]) (localDir ++ [d]) sub
          (dirEntriesOf localFs d) c1
      | _ => c1
    detectDirChanges localDir remoteDir localFs remoteFs state rest c2

/-- `detect_changes` (state.rs lines 167-261): tracked files first, then
tracked directories, all appended to one ordered record list. -/
def detect_changes (localDir remoteDir : Path) (localFs remoteFs : Entries)
    (syncFiles syncDirs : List String) (state : SyncState) : List Change :=
  detectDirChanges localDir remoteDir localFs remoteFs state syncDirs
    (detectFileChanges localDir remoteDir localFs remoteFs syncFiles)

/-! ## Sync engine (src/watch/src/sync.rs) -/

/-- Direction of a sync pass: `SyncDirection` in sync.rs. -/
inductive SyncDirection where
  | Push : SyncDirection
  | Pull : SyncDirection
  | Bidirectional : SyncDirection
  deriving DecidableEq, Repr

/-- Bytes and modification time of one file on disk.  SHA-256 and JSON
parsing are the external `sha2`/`serde_json` collaborators, passed in as
functions on the byte content. -/
structure FileContent where
  bytes : List Nat
  mtime : Int
  deriving DecidableEq, Repr

/-- A flat filesystem: which content sits at each absolute path. -/
abbrev FS := List (Path × FileContent)

/-- Rust `Path::extension` on a file name: the part after the last dot,
except that a leading-dot name with no further dot has no extension. -/
def extOf (nm : String) : Option String :=
  match nm.splitOn "." with
  | [] => none
  | [_] => none
  | "" :: [_] => none
  | parts => parts.getLast?

/-- Whether `src.extension() == Some("json")`. -/
def hasJsonExt (p : Path) : Bool :=
  match p.getLast? with
  | some nm => extOf nm == some "json"
  | none => false

/-- `SyncEngine::safe_copy_file` (sync.rs lines 200-243).  `hash` is the
SHA-256 hex digest of a byte string; `jsonOk` is serde_json parse success;
`landed` is the content actually present at `dst` after the byte copy (it
equals the source content unless an external writer interferes between the
copy and the verification read-back).  Returns the filesystem after the
call and the copy outcome. -/
def safe_copy_file (hash : List Nat → String) (jsonOk : List Nat → Bool)
    (fs : FS) (src dst : Path) (landed : FileContent) : FS × Except String Unit :=
  match lookupA fs src with
  | none => (fs, Except.error "Source does not exist")
  | some c =>
    if c.bytes.length = 0 then
      (fs, Except.error "Source file is empty, Dropbox sync in progress?")
    else if hasJsonExt src && ! jsonOk c.bytes then
      (fs, Except.error "Invalid JSON in file")
    else
      let fs1 := insertA fs dst landed
      let srcHash := hash c.bytes
      let dstHash := hash landed.bytes
      if srcHash ≠ dstHash then
        (eraseA fs1 dst,
         Except.error ("Checksum mismatch after copy: " ++ srcHash ++ " vs " ++ dstHash))
      else (fs1, Except.ok ())

/-- `SyncState::get_file_state` as used after a successful copy: recompute
the destination record from the live filesystem. -/
def get_file_state (hash : List Nat → String) (fs : FS) (p : Path) : Option FileState :=
  (lookupA fs p).map
    (fun c => { sha256 := hash c.bytes, mtime := c.mtime, size := c.bytes.length })

/-- `SyncState::update_file` (state.rs lines 122-125): replace the entry and
refresh `last_sync`. -/
def SyncState.update_file (s : SyncState) (rel : String) (fst : FileState)
    (now : Int) : SyncState :=
  { s with files := insertA s.files rel fst, last_sync := now }

/-- Running totals of one sync pass: copied and skipped counters, collected
warnings, and the in-memory state (sync.rs lines 91-93). -/
structure SyncAcc where
  copied : Nat
  skipped : Nat
  warnings : List String
  state : SyncState
  deriving Repr

/-- Direction eligibility of one change record (sync.rs lines 97-110). -/
def shouldApply (claudeDir dropboxDir : Path) (direction : SyncDirection)
    (c : Change) : Bool :=
  match direction with
  | SyncDirection.Push => pathStartsWith claudeDir c.src
  | SyncDirection.Pull => pathStartsWith dropboxDir c.src
  | SyncDirection.Bidirectional => true

/-- One iteration of the apply loop of `SyncEngine::sync` (sync.rs lines
95-145): filter by direction, safe-copy, update counters, warnings and the
in-memory state.  `now` models `Utc::now()` inside `update_file`. -/
def syncStep (hash : List Nat → String) (jsonOk : List Nat → Bool)
    (claudeDir dropboxDir : Path) (direction : SyncDirection)
    (landed : Change → FileContent) (now : Int)
    (acc : FS × SyncAcc) (c : Change) : FS × SyncAcc :=
  if ! shouldApply claudeDir dropboxDir direction c then
    (acc.1, { acc.2 with skipped := acc.2.skipped + 1 })
  else
    match safe_copy_file hash jsonOk acc.1 c.src c.dst (landed c) with
    | (fs1, Except.ok _) =>
      let newState :=
        match get_file_state hash fs1 c.dst with
        | some st => acc.2.state.update_file c.rel_path st now
        | none => acc.2.state
      (fs1, { acc.2 with copied := acc.2.copied + 1, state := newState })
    | (fs1, Except.error e) =>
      let warning := "Failed to copy " ++ c.rel_path ++ ": " ++ e
      (fs1, { acc.2 with skipped := acc.2.skipped + 1, warnings := acc.2.warnings ++ [warning] })

/-- The whole apply loop over a detected change list. -/
def runChanges (hash : List Nat → String) (jsonOk : List Nat → Bool)
    (claudeDir dropboxDir : Path) (direction : SyncDirection)
    (landed : Change → FileContent) (now : Int)
    (changes : List Change) (fs : FS) (acc : SyncAcc) : FS × SyncAcc :=
  changes.foldl (syncStep hash jsonOk claudeDir dropboxDir direction landed now) (fs, acc)

/-- The state-document path used by `show_status` (main.rs line 164):
`config.dropbox_claude_dir.join(".sync_state.json")`. -/
def showStatusStatePath (dropboxClaudeDir : Path) : Path :=
  dropboxClaudeDir ++ [".sync_state.json"]

/-! ## Debounce buffer and dispatch (src/watch/src/watcher.rs) -/

/-- `ChangeBuffer` (watcher.rs lines 14-19): pending changes, a map from
path to (is_local, last-seen instant), plus the open-batch start instant.
`Instant` is modelled as `Rat` seconds. -/
structure ChangeBuffer where
  pending : List (Path × Bool × Rat)
  firstChange : Option Rat
  deriving DecidableEq, Repr

/-- `ChangeBuffer::new`. -/
def ChangeBuffer.emptyBuffer : ChangeBuffer :=
  { pending := [], firstChange := none }

/-- `ChangeBuffer::add` (watcher.rs lines 30-35): set the batch-open instant
if unset, then insert-or-replace the entry at `Instant::now()`. -/
def ChangeBuffer.add (b : ChangeBuffer) (path : Path) (isLocal : Bool)
    (now : Rat) : ChangeBuffer :=
  { firstChange := (match b.firstChange with | none => some now | some f => some f),
    pending := insertA b.pending path (isLocal, now) }

/-- `ChangeBuffer::should_flush` (watcher.rs lines 38-53): false when empty;
true when the batch has been open at least `maxBatchSecs`; otherwise true
exactly when every pending entry has been quiet for at least
`debounceSecs`.  `now` makes `Instant::elapsed` explicit. -/
def ChangeBuffer.should_flush (b : ChangeBuffer)
    (debounceSecs maxBatchSecs now : Rat) : Bool :=
  if b.pending.isEmpty then false
  else if (match b.firstChange with
           | some f => decide (maxBatchSecs ≤ now - f)
           | none => false) then true
  else b.pending.all (fun e => decide (debounceSecs ≤ now - e.2.2))

/-- `ChangeBuffer::take` (watcher.rs lines 56-62): drain all entries to
(path, is_local) pairs and reset the batch-open instant. -/
def ChangeBuffer.take (b : ChangeBuffer) : List (Path × Bool) × ChangeBuffer :=
  (b.pending.map (fun e => (e.1, e.2.1)),
   { pending := [], firstChange := none })

/-- Direction classification of a drained batch (watcher.rs lines 189-197):
Push when every event is local, Pull when every event is remote,
Bidirectional otherwise. -/
def classifyDirection (batch : List (Path × Bool)) : SyncDirection :=
  let hasLocal := batch.any (fun e => e.2)
  let hasRemote := batch.any (fun e => ! e.2)
  match hasLocal, hasRemote with
  | true, false => SyncDirection.Push
  | false, true => SyncDirection.Pull
  | _, _ => SyncDirection.Bidirectional

/-! ## General lemmas -/

theorem pathStartsWith_append (base extra : Path) :
    pathStartsWith base (base ++ extra) = true := by
  induction base with
  | nil => rfl
  | cons a rest ih => simp [pathStartsWith, ih]

theorem scanGo_state_irrel (li : Bool) (s1 s2 : SyncState) (pre : String)
    (sp dp : Path) (es dst : Entries) (ch : List Change) :
    scanGo li s1 pre sp dp es dst ch = scanGo li s2 pre sp dp es dst ch := by
  induction pre, sp, dp, es, dst, ch using scanGo.induct li s1 with
  | case1 x x1 x2 x3 changes => simp [scanGo]
  | case2 pre sp dp name t rest dstEs changes changes1 ihsub ihrest =>
    cases t with
    | file st =>
      simp only [scanGo]
      exact ihrest
    | dir sub =>
      by_cases h : name.startsWith "."
      · have hch : changes1 = changes := by
          unfold changes1
          simp [h]
        rw [hch] at ihrest
        simp only [scanGo, h, if_true]
        exact ihrest
      · have hch : changes1 = scanGo li s1 (pre ++ "/" ++ name) (sp ++ [name])
            (dp ++ [name]) sub (dirEntriesOf dstEs name) changes := by
          unfold changes1
          simp [h]
        rw [hch] at ihrest
        simp only [scanGo, h, if_false]
        rw [← ihsub]
        exact ihrest

theorem fileState_roundTrip (f : FileState) :
    fileStateFromJson f.toJson = Except.ok f := by
  simp [FileState.toJson, fileStateFromJson, lookupA, Int.toNat_ofNat]

theorem files_roundTrip (fl : List (String × FileState)) :
    filesFromJson (filesToJson fl) = Except.ok fl := by
  induction fl with
  | nil => rfl
  | cons kv rest ih =>
    obtain ⟨k, f⟩ := kv
    simp only [filesToJson, List.map_cons] at ih ⊢
    simp [filesFromJson, fileState_roundTrip, ih]

theorem syncState_roundTrip (s : SyncState) :
    syncStateFromJson s.toJson = Except.ok s := by
  simp [SyncState.toJson, syncStateFromJson, lookupA, files_roundTrip, Int.toNat_ofNat]

/-! ## Claim theorems -/

/-- C8: for every well-formed SyncState value and every path, saving the
state to the path and then loading from that path yields a state equal to
the original. -/
theorem c8_save_load_roundTrip (store : DocStore) (p : Path) (now : Int)
    (s : SyncState) (hwf : s.wellFormed) :
    loadState (saveState store p s) p now = Except.ok s := by
  unfold loadState saveState
  rw [lookupA_insertA_self]
  exact syncState_roundTrip s

/-- Witness for C8 at a concrete well-formed state. -/
theorem c8_save_load_roundTrip_witness :
    loadState (saveState [] [".claude_sync_state.json"]
        { version := 1, machine_id := "mac1", last_sync := 7,
          files := [("settings.json", { sha256 := "abc", mtime := 5, size := 3 })] })
      [".claude_sync_state.json"] 0 =
    Except.ok { version := 1, machine_id := "mac1", last_sync := 7,
                files := [("settings.json", { sha256 := "abc", mtime := 5, size := 3 })] } :=
  c8_save_load_roundTrip [] [".claude_sync_state.json"] 0 _ (by simp [SyncState.wellFormed])

/-- C2 counterexample: a present-but-unparsable state document (a JSON
document that is not an object, at the engine state path) makes
`SyncState::load` fail, yet the sync pass (sync.rs line 76) proceeds with
the default empty state instead of failing. -/
theorem c2_counterexample :
    loadState [([".claude_sync_state.json"], Json.null)] [".claude_sync_state.json"] 0 =
      Except.error "expected object"
    ∧ syncPassLoadedState [([".claude_sync_state.json"], Json.null)]
        [".claude_sync_state.json"] 0 = SyncState.defaultState 0 := by
  constructor <;> rfl

/-- C2 (amended): `SyncState::load` treats a present-but-unparsable document
as a hard failure (and an absent document as the silent default), but the
sync pass swallows the load error with `unwrap_or_default` and proceeds
with a default empty state. -/
theorem c2_load_hard_failure_swallowed (store : DocStore) (p : Path) (now : Int)
    (j : Json) (e : String) :
    (lookupA store p = some j → syncStateFromJson j = Except.error e →
      loadState store p now = Except.error e
      ∧ syncPassLoadedState store p now = SyncState.defaultState now)
    ∧ (lookupA store p = none →
      loadState store p now = Except.ok (SyncState.defaultState now)) := by
  constructor
  · intro hdoc hbad
    constructor
    · simp [loadState, hdoc, hbad]
    · simp [syncPassLoadedState, loadState, hdoc, hbad]
  · intro habs
    simp [loadState, habs]

/-- Witness for C2's amended statement at a concrete corrupt document. -/
theorem c2_load_hard_failure_swallowed_witness :
    loadState [([".claude_sync_state.json"], Json.null)] [".claude_sync_state.json"] 3 =
      Except.error "expected object"
    ∧ syncPassLoadedState [([".claude_sync_state.json"], Json.null)]
        [".claude_sync_state.json"] 3 = SyncState.defaultState 3 :=
  (c2_load_hard_failure_swallowed [([".claude_sync_state.json"], Json.null)]
    [".claude_sync_state.json"] 3 Json.null "expected object").1 rfl rfl

/-- C3: contrary to the claim that every read of the persisted state uses a
local-only path outside the replicated tree, `show_status` (main.rs line
164) reads the state document from a path that is a descendant of the
replicated Dropbox tree. -/
theorem c3_show_status_reads_replicated_tree (dropboxClaudeDir : Path) :
    pathStartsWith dropboxClaudeDir (showStatusStatePath dropboxClaudeDir) = true := by
  unfold showStatusStatePath
  exact pathStartsWith_append dropboxClaudeDir [".sync_state.json"]

/-- C9: detect_changes returns the same record sequence for any two recorded
states; the detection result depends only on the two trees, never on the
state passed in. -/
theorem c9_detect_changes_state_independent (localDir remoteDir : Path)
    (localFs remoteFs : Entries) (syncFiles syncDirs : List String)
    (s1 s2 : SyncState) :
    detect_changes localDir remoteDir localFs remoteFs syncFiles syncDirs s1 =
    detect_changes localDir remoteDir localFs remoteFs syncFiles syncDirs s2 := by
  unfold detect_changes
  generalize detectFileChanges localDir remoteDir localFs remoteFs syncFiles = base
  induction syncDirs generalizing base with
  | nil => rfl
  | cons d rest ih =>
    simp only [detectDirChanges]
    have e1 : ∀ b : List Change,
        (match lookupA localFs d with
         | some (FsTree.dir sub) =>
           scanGo true s1 d (localDir ++ [d]) (remoteDir ++ [d]) sub
             (dirEntriesOf remoteFs d) b
         | _ => b) =
        (match lookupA localFs d with
         | some (FsTree.dir sub) =>
           scanGo true s2 d (localDir ++ [d]) (remoteDir ++ [d]) sub
             (dirEntriesOf remoteFs d) b
         | _ => b) := by
      intro b
      cases lookupA localFs d with
      | none => rfl
      | some t =>
        cases t with
        | file st => rfl
        | dir sub => exact scanGo_state_irrel true s1 s2 d _ _ sub _ b
    have e2 : ∀ b : List Change,
        (match lookupA remoteFs d with
         | some (FsTree.dir sub) =>
           scanGo false s1 d (remoteDir ++ [d]) (localDir ++ [d]) sub
             (dirEntriesOf localFs d) b
         | _ => b) =
        (match lookupA remoteFs d with
         | some (FsTree.dir sub) =>
           scanGo false s2 d (remoteDir ++ [d]) (localDir ++ [d]) sub
             (dirEntriesOf localFs d) b
         | _ => b) := by
      intro b
      cases lookupA remoteFs d with
      | none => rfl
      | some t =>
        cases t with
        | file st => rfl
        | dir sub => exact scanGo_state_irrel false s1 s2 d _ _ sub _ b
    rw [e1, e2]
    exact ih _

theorem syncStep_files_lookup_ne (hash : List Nat → String) (jsonOk : List Nat → Bool)
    (cd dd : Path) (dir : SyncDirection) (landed : Change → FileContent) (now : Int)
    (fs : FS) (acc : SyncAcc) (c : Change) (rel : String) (h : ¬ c.rel_path = rel) :
    lookupA (syncStep hash jsonOk cd dd dir landed now (fs, acc) c).2.state.files rel =
    lookupA acc.state.files rel := by
  by_cases hap : shouldApply cd dd dir c
  · simp only [syncStep, hap, Bool.not_true, Bool.false_eq_true, if_false]
    rcases hc : safe_copy_file hash jsonOk fs c.src c.dst (landed c) with ⟨fs1, r⟩
    cases r with
    | ok u =>
      cases hg : get_file_state hash fs1 c.dst with
      | none => simp [hg]
      | some st => simp [hg, SyncState.update_file, lookupA_insertA_ne _ _ _ _ h]
    | error e => simp
  · simp only [syncStep, Bool.not_eq_true] at hap
    simp [syncStep, hap]

theorem runChanges_files_lookup_ne (hash : List Nat → String) (jsonOk : List Nat → Bool)
    (cd dd : Path) (dir : SyncDirection) (landed : Change → FileContent) (now : Int)
    (changes : List Change) (fs : FS) (acc : SyncAcc) (rel : String)
    (h : ∀ c ∈ changes, ¬ c.rel_path = rel) :
    lookupA (runChanges hash jsonOk cd dd dir landed now changes fs acc).2.state.files rel =
    lookupA acc.state.files rel := by
  induction changes generalizing fs acc with
  | nil => rfl
  | cons c rest ih =>
    simp only [runChanges, List.foldl_cons]
    rcases hstep : syncStep hash jsonOk cd dd dir landed now (fs, acc) c with ⟨fs1, acc1⟩
    have h1 := syncStep_files_lookup_ne hash jsonOk cd dd dir landed now fs acc c rel
      (h c (by simp))
    rw [hstep] at h1
    have h2 := ih fs1 acc1 (fun c' hc' => h c' (by simp [hc']))
    calc lookupA ((runChanges hash jsonOk cd dd dir landed now rest fs1 acc1).2).state.files rel
        = lookupA acc1.state.files rel := h2
      _ = lookupA acc.state.files rel := h1

/-- C7: a change is eligible under Push only if its source is under the
local root, under Pull only if its source is under the remote root, and
under Bidirectional unconditionally; an ineligible record is counted as
skipped and nothing else happens — no copy is attempted, the filesystem,
counters, warnings and state are untouched. -/
theorem c7_direction_filtering (hash : List Nat → String) (jsonOk : List Nat → Bool)
    (claudeDir dropboxDir : Path) (direction : SyncDirection)
    (landed : Change → FileContent) (now : Int) (fs : FS) (acc : SyncAcc) (c : Change) :
    shouldApply claudeDir dropboxDir SyncDirection.Push c = pathStartsWith claudeDir c.src
    ∧ shouldApply claudeDir dropboxDir SyncDirection.Pull c = pathStartsWith dropboxDir c.src
    ∧ shouldApply claudeDir dropboxDir SyncDirection.Bidirectional c = true
    ∧ (shouldApply claudeDir dropboxDir direction c = false →
        syncStep hash jsonOk claudeDir dropboxDir direction landed now (fs, acc) c
          = (fs, { acc with skipped := acc.skipped + 1 })) := by
  refine ⟨rfl, rfl, rfl, ?_⟩
  intro h
  simp [syncStep, h]

/-- Witness for C7: a Pull-directed pass skips a change whose source is
under the local root, attempting no copy. -/
theorem c7_direction_filtering_witness :
    syncStep (fun b => toString b.length) (fun _ => true)
        ["home", ".claude"] ["home", "Dropbox", "ClaudeCodeSync"]
        SyncDirection.Pull (fun _ => { bytes := [1], mtime := 0 }) 0
        ([], { copied := 0, skipped := 0, warnings := [], state := SyncState.defaultState 0 })
        { rel_path := "settings.json", change_type := ChangeType.Created,
          src := ["home", ".claude", "settings.json"],
          dst := ["home", "Dropbox", "ClaudeCodeSync", "settings.json"] }
      = ([], { copied := 0, skipped := 1, warnings := [], state := SyncState.defaultState 0 }) :=
  (c7_direction_filtering (fun b => toString b.length) (fun _ => true)
    ["home", ".claude"] ["home", "Dropbox", "ClaudeCodeSync"]
    SyncDirection.Pull (fun _ => { bytes := [1], mtime := 0 }) 0 _ _ _).2.2.2 (by decide)

/-- C1: for an eligible change whose post-copy destination hash differs
from the source hash, safe copy deletes the destination copy and returns
the checksum-mismatch error; the pass appends the path to the warnings,
counts it as skipped, leaves the counters and in-memory state otherwise
unchanged, continues with the remaining records, and the state entry for
that relative path ends the pass at its pre-pass value (which is then what
gets persisted). -/
theorem c1_checksum_mismatch_gate (hash : List Nat → String) (jsonOk : List Nat → Bool)
    (cd dd : Path) (dir : SyncDirection) (landed : Change → FileContent) (now : Int)
    (pre post : List Change) (c : Change) (fs0 fs1 : FS) (acc0 acc1 : SyncAcc)
    (sc : FileContent)
    (hpre : runChanges hash jsonOk cd dd dir landed now pre fs0 acc0 = (fs1, acc1))
    (helig : shouldApply cd dd dir c = true)
    (hsrc : lookupA fs1 c.src = some sc)
    (hnonempty : ¬ sc.bytes.length = 0)
    (hjson : hasJsonExt c.src = true → jsonOk sc.bytes = true)
    (hmismatch : ¬ hash sc.bytes = hash (landed c).bytes)
    (hrel : ∀ c' ∈ pre ++ post, ¬ c'.rel_path = c.rel_path) :
    (safe_copy_file hash jsonOk fs1 c.src c.dst (landed c)).2 =
      Except.error ("Checksum mismatch after copy: " ++ hash sc.bytes ++ " vs "
        ++ hash (landed c).bytes)
    ∧ lookupA (safe_copy_file hash jsonOk fs1 c.src c.dst (landed c)).1 c.dst = none
    ∧ syncStep hash jsonOk cd dd dir landed now (fs1, acc1) c =
        ((safe_copy_file hash jsonOk fs1 c.src c.dst (landed c)).1,
         { acc1 with skipped := acc1.skipped + 1,
                     warnings := acc1.warnings ++ ["Failed to copy " ++ c.rel_path ++ ": "
                       ++ ("Checksum mismatch after copy: " ++ hash sc.bytes ++ " vs "
                         ++ hash (landed c).bytes)] })
    ∧ runChanges hash jsonOk cd dd dir landed now (pre ++ c :: post) fs0 acc0 =
        runChanges hash jsonOk cd dd dir landed now post
          (safe_copy_file hash jsonOk fs1 c.src c.dst (landed c)).1
          { acc1 with skipped := acc1.skipped + 1,
                      warnings := acc1.warnings ++ ["Failed to copy " ++ c.rel_path ++ ": "
                        ++ ("Checksum mismatch after copy: " ++ hash sc.bytes ++ " vs "
                          ++ hash (landed c).bytes)] }
    ∧ lookupA (runChanges hash jsonOk cd dd dir landed now
          (pre ++ c :: post) fs0 acc0).2.state.files c.rel_path =
        lookupA acc0.state.files c.rel_path := by
  have hj : (hasJsonExt c.src && ! jsonOk sc.bytes) = false := by
    cases hje : hasJsonExt c.src
    · simp
    · simp [hjson hje]
  have hsafe : safe_copy_file hash jsonOk fs1 c.src c.dst (landed c) =
      (eraseA (insertA fs1 c.dst (landed c)) c.dst,
       Except.error ("Checksum mismatch after copy: " ++ hash sc.bytes ++ " vs "
         ++ hash (landed c).bytes)) := by
    simp [safe_copy_file, hsrc, hnonempty, hj, hmismatch]
  have hstep : syncStep hash jsonOk cd dd dir landed now (fs1, acc1) c =
      ((safe_copy_file hash jsonOk fs1 c.src c.dst (landed c)).1,
       { acc1 with skipped := acc1.skipped + 1,
                   warnings := acc1.warnings ++ ["Failed to copy " ++ c.rel_path ++ ": "
                     ++ ("Checksum mismatch after copy: " ++ hash sc.bytes ++ " vs "
                       ++ hash (landed c).bytes)] }) := by
    simp only [syncStep, helig, Bool.not_true, Bool.false_eq_true, if_false, hsafe]
  have hrun : runChanges hash jsonOk cd dd dir landed now (pre ++ c :: post) fs0 acc0 =
      runChanges hash jsonOk cd dd dir landed now post
        (safe_copy_file hash jsonOk fs1 c.src c.dst (landed c)).1
        { acc1 with skipped := acc1.skipped + 1,
                    warnings := acc1.warnings ++ ["Failed to copy " ++ c.rel_path ++ ": "
                      ++ ("Checksum mismatch after copy: " ++ hash sc.bytes ++ " vs "
                        ++ hash (landed c).bytes)] } := by
    unfold runChanges
    rw [List.foldl_append]
    have h0 : List.foldl (syncStep hash jsonOk cd dd dir landed now) (fs0, acc0) pre
        = (fs1, acc1) := hpre
    rw [h0, List.foldl_cons, hstep]
  refine ⟨by rw [hsafe], by rw [hsafe]; exact lookupA_eraseA_self _ _, hstep, hrun, ?_⟩
  rw [hrun]
  have hpost := runChanges_files_lookup_ne hash jsonOk cd dd dir landed now post
    (safe_copy_file hash jsonOk fs1 c.src c.dst (landed c)).1
    { acc1 with skipped := acc1.skipped + 1,
                warnings := acc1.warnings ++ ["Failed to copy " ++ c.rel_path ++ ": "
                  ++ ("Checksum mismatch after copy: " ++ hash sc.bytes ++ " vs "
                    ++ hash (landed c).bytes)] }
    c.rel_path (fun c' hc' => hrel c' (by simp [hc']))
  rw [hpost]
  have hpre2 := runChanges_files_lookup_ne hash jsonOk cd dd dir landed now pre
    fs0 acc0 c.rel_path (fun c' hc' => hrel c' (by simp [hc']))
  rw [hpre] at hpre2
  exact hpre2

/-- Witness for C1 at a concrete corrupted copy: the source holds one byte,
the landed destination two, the hash is the byte count rendered as a
string, so verification fails and the state entry is untouched. -/
theorem c1_checksum_mismatch_gate_witness :
    (safe_copy_file (fun b => toString b.length) (fun _ => true)
        [([".claude", "settings.json"], { bytes := [1], mtime := 5 })]
        [".claude", "settings.json"] ["Dropbox", "settings.json"]
        { bytes := [1, 2], mtime := 9 }).2 =
      Except.error ("Checksum mismatch after copy: " ++ toString (1 : Nat) ++ " vs "
        ++ toString (2 : Nat))
    ∧ lookupA (safe_copy_file (fun b => toString b.length) (fun _ => true)
        [([".claude", "settings.json"], { bytes := [1], mtime := 5 })]
        [".claude", "settings.json"] ["Dropbox", "settings.json"]
        { bytes := [1, 2], mtime := 9 }).1 ["Dropbox", "settings.json"] = none
    ∧ lookupA (runChanges (fun b => toString b.length) (fun _ => true)
          [".claude"] ["Dropbox"] SyncDirection.Bidirectional
          (fun _ => { bytes := [1, 2], mtime := 9 }) 0
          [{ rel_path := "settings.json", change_type := ChangeType.Modified,
             src := [".claude", "settings.json"], dst := ["Dropbox", "settings.json"] }]
          [([".claude", "settings.json"], { bytes := [1], mtime := 5 })]
          { copied := 0, skipped := 0, warnings := [],
            state := SyncState.defaultState 0 }).2.state.files "settings.json" = none := by
  have h := c1_checksum_mismatch_gate (fun b => toString b.length) (fun _ => true)
    [".claude"] ["Dropbox"] SyncDirection.Bidirectional
    (fun _ => { bytes := [1, 2], mtime := 9 }) 0 [] []
    { rel_path := "settings.json", change_type := ChangeType.Modified,
      src := [".claude", "settings.json"], dst := ["Dropbox", "settings.json"] }
    [([".claude", "settings.json"], { bytes := [1], mtime := 5 })]
    [([".claude", "settings.json"], { bytes := [1], mtime := 5 })]
    { copied := 0, skipped := 0, warnings := [], state := SyncState.defaultState 0 }
    { copied := 0, skipped := 0, warnings := [], state := SyncState.defaultState 0 }
    { bytes := [1], mtime := 5 }
    rfl rfl rfl (by decide) (fun _ => rfl) (by decide) (by simp)
  exact ⟨h.1, h.2.1, h.2.2.2.2⟩

theorem hasSlash_concat (s t : String) : hasSlash (s ++ "/" ++ t) = true := by
  have h : '/' ∈ (s ++ "/" ++ t).data := by
    rw [String.data_append, String.data_append]
    simp [show ("/" : String).data = ['/'] from rfl]
  rw [hasSlash, List.any_eq_true]
  exact ⟨'/', h, by simp⟩

theorem scanGo_file_arg (cond : Bool) (ch : List Change) (r : Change) :
    ∃ mid, (if cond then ch ++ [r] else ch) = ch ++ mid ∧ ∀ c ∈ mid, c = r := by
  cases cond
  · exact ⟨[], by simp, by simp⟩
  · exact ⟨[r], by simp, by simp⟩

theorem scanGo_extends_bounded (li : Bool) (s : SyncState) :
    ∀ (n : Nat) (es : Entries), sizeOf es ≤ n →
      ∀ (pre : String) (sp dp : Path) (dst : Entries) (ch : List Change),
        ∃ new, scanGo li s pre sp dp es dst ch = ch ++ new
          ∧ ∀ c ∈ new, hasSlash c.rel_path = true := by
  intro n
  induction n with
  | zero =>
    intro es hes
    cases es with
    | nil => simp at hes
    | cons e rest => simp at hes
  | succ n ih =>
    intro es hes pre sp dp dst ch
    cases es with
    | nil => exact ⟨[], by simp [scanGo], by simp⟩
    | cons e rest =>
      obtain ⟨name, t⟩ := e
      simp only [List.cons.sizeOf_spec, Prod.mk.sizeOf_spec] at hes
      cases t with
      | file st =>
        simp only [scanGo, ite_self]
        by_cases h : name.startsWith "."
        · rw [if_pos h]
          exact ih rest (by omega) pre sp dp dst ch
        · rw [if_neg h]
          obtain ⟨mid, hmid, hmidP⟩ := scanGo_file_arg
            ((match treeLookupFile dst name with
              | none => true
              | some d => if st.sha256 ≠ d.sha256 then decide (d.mtime < st.mtime)
                          else false) &&
             ! ch.any fun c => decide (c.rel_path = pre ++ "/" ++ name)) ch
            { rel_path := pre ++ "/" ++ name,
              change_type := if (treeLookupFile dst name).isSome then ChangeType.Modified
                             else ChangeType.Created,
              src := sp ++ [name], dst := dp ++ [name] }
          rw [hmid]
          obtain ⟨new2, hnew2, hnew2P⟩ := ih rest (by omega) pre sp dp dst (ch ++ mid)
          rw [hnew2]
          refine ⟨mid ++ new2, by simp, ?_⟩
          intro x hx
          rcases List.mem_append.mp hx with hx | hx
          · rw [hmidP x hx]
            exact hasSlash_concat pre name
          · exact hnew2P x hx
      | dir sub =>
        have hsub : sizeOf sub ≤ n := by
          simp only [FsTree.dir.sizeOf_spec] at hes
          omega
        simp only [scanGo]
        by_cases h : name.startsWith "."
        · rw [if_pos h]
          exact ih rest (by omega) pre sp dp dst ch
        · rw [if_neg h]
          obtain ⟨new1, hnew1, hnew1P⟩ := ih sub hsub (pre ++ "/" ++ name)
            (sp ++ [name]) (dp ++ [name]) (dirEntriesOf dst name) ch
          rw [hnew1]
          obtain ⟨new2, hnew2, hnew2P⟩ := ih rest (by omega) pre sp dp dst (ch ++ new1)
          rw [hnew2]
          refine ⟨new1 ++ new2, by simp, ?_⟩
          intro x hx
          rcases List.mem_append.mp hx with hx | hx
          · exact hnew1P x hx
          · exact hnew2P x hx

theorem scanGo_extends (li : Bool) (s : SyncState) (pre : String) (sp dp : Path)
    (es dst : Entries) (ch : List Change) :
    ∃ new, scanGo li s pre sp dp es dst ch = ch ++ new
      ∧ ∀ c ∈ new, hasSlash c.rel_path = true :=
  scanGo_extends_bounded li s (sizeOf es) es (le_refl _) pre sp dp dst ch

theorem dirSideScan_extends (li : Bool) (s : SyncState) (d : String) (sp dp : Path)
    (srcFs dstFs : Entries) (b : List Change) :
    ∃ m, (match lookupA srcFs d with
          | some (FsTree.dir sub) => scanGo li s d sp dp sub (dirEntriesOf dstFs d) b
          | _ => b) = b ++ m ∧ ∀ c ∈ m, hasSlash c.rel_path = true := by
  cases lookupA srcFs d with
  | none => exact ⟨[], by simp, by simp⟩
  | some t =>
    cases t with
    | file st => exact ⟨[], by simp, by simp⟩
    | dir sub => exact scanGo_extends li s d sp dp sub (dirEntriesOf dstFs d) b

theorem detectDirChanges_extends (localDir remoteDir : Path) (localFs remoteFs : Entries)
    (s : SyncState) (dirs : List String) (ch : List Change) :
    ∃ new, detectDirChanges localDir remoteDir localFs remoteFs s dirs ch = ch ++ new
      ∧ ∀ c ∈ new, hasSlash c.rel_path = true := by
  induction dirs generalizing ch with
  | nil => exact ⟨[], by simp [detectDirChanges], by simp⟩
  | cons d rest ih =>
    simp only [detectDirChanges]
    obtain ⟨m1, hm1, hm1P⟩ := dirSideScan_extends true s d (localDir ++ [d])
      (remoteDir ++ [d]) localFs remoteFs ch
    rw [hm1]
    obtain ⟨m2, hm2, hm2P⟩ := dirSideScan_extends false s d (remoteDir ++ [d])
      (localDir ++ [d]) remoteFs localFs (ch ++ m1)
    rw [hm2]
    obtain ⟨new3, hnew3, hnew3P⟩ := ih ((ch ++ m1) ++ m2)
    rw [hnew3]
    refine ⟨m1 ++ (m2 ++ new3), by simp, ?_⟩
    intro x hx
    rcases List.mem_append.mp hx with hx | hx
    · exact hm1P x hx
    rcases List.mem_append.mp hx with hx | hx
    · exact hm2P x hx
    · exact hnew3P x hx

theorem fileRecsFor_rel (localDir remoteDir : Path) (localFs remoteFs : Entries)
    (name : String) (c : Change)
    (hc : c ∈ fileRecsFor localDir remoteDir localFs remoteFs name) :
    c.rel_path = name := by
  unfold fileRecsFor at hc
  split at hc <;> (try split_ifs at hc) <;> simp_all

theorem fileRecsFor_modified (localDir remoteDir : Path) (localFs remoteFs : Entries)
    (name : String) (ls rs : FileState)
    (hl : treeLookupFile localFs name = some ls)
    (hr : treeLookupFile remoteFs name = some rs)
    (hsha : ¬ ls.sha256 = rs.sha256) (hmt : ¬ ls.mtime = rs.mtime) :
    fileRecsFor localDir remoteDir localFs remoteFs name =
      [ if rs.mtime < ls.mtime then
          { rel_path := name, change_type := ChangeType.Modified,
            src := localDir ++ [name], dst := remoteDir ++ [name] }
        else
          { rel_path := name, change_type := ChangeType.Modified,
            src := remoteDir ++ [name], dst := localDir ++ [name] } ] := by
  unfold fileRecsFor
  simp only [hl, hr]
  rw [if_pos hsha]
  by_cases hlt : rs.mtime < ls.mtime
  · rw [if_pos hlt, if_pos hlt]
  · rw [if_neg hlt, if_neg hlt, if_pos (by omega : ls.mtime < rs.mtime)]

theorem fileRecsFor_equal_mtime (localDir remoteDir : Path) (localFs remoteFs : Entries)
    (name : String) (ls rs : FileState)
    (hl : treeLookupFile localFs name = some ls)
    (hr : treeLookupFile remoteFs name = some rs)
    (hmt : ls.mtime = rs.mtime) :
    fileRecsFor localDir remoteDir localFs remoteFs name = [] := by
  unfold fileRecsFor
  simp only [hl, hr]
  by_cases hsha : ls.sha256 ≠ rs.sha256
  · rw [if_pos hsha, if_neg (by omega), if_neg (by omega)]
  · rw [if_neg hsha]

theorem detectFileChanges_filter_zero (localDir remoteDir : Path)
    (localFs remoteFs : Entries) (sf : List String) (name : String)
    (h0 : sf.count name = 0) :
    (detectFileChanges localDir remoteDir localFs remoteFs sf).filter
      (fun c => c.rel_path = name) = [] := by
  induction sf with
  | nil => rfl
  | cons n rest ih =>
    have hn : ¬ n = name := by
      intro he
      subst he
      simp [List.count_cons] at h0
    have hrest : rest.count name = 0 := by
      rw [List.count_cons] at h0
      omega
    simp only [detectFileChanges, List.filter_append, ih hrest, List.append_nil]
    rw [List.filter_eq_nil_iff.mpr]
    intro c hc
    have := fileRecsFor_rel localDir remoteDir localFs remoteFs n c hc
    simp [this, hn]

/-- C4: when a tracked file name exists on both sides with differing hashes
and differing mtimes, detection emits exactly one Modified record for that
name, sourced from the strictly newer copy; in particular with local hash
H1 mtime 100 and remote hash H2 mtime 200, the single record copies remote
to local. -/
theorem c4_modified_newer_wins (localDir remoteDir : Path) (localFs remoteFs : Entries)
    (syncFiles syncDirs : List String) (state : SyncState) (name : String)
    (ls rs : FileState)
    (hslash : hasSlash name = false)
    (hcount : syncFiles.count name = 1)
    (hl : treeLookupFile localFs name = some ls)
    (hr : treeLookupFile remoteFs name = some rs)
    (hsha : ¬ ls.sha256 = rs.sha256)
    (hmt : ¬ ls.mtime = rs.mtime) :
    (detect_changes localDir remoteDir localFs remoteFs syncFiles syncDirs state).filter
        (fun c => c.rel_path = name) =
      [ if rs.mtime < ls.mtime then
          { rel_path := name, change_type := ChangeType.Modified,
            src := localDir ++ [name], dst := remoteDir ++ [name] }
        else
          { rel_path := name, change_type := ChangeType.Modified,
            src := remoteDir ++ [name], dst := localDir ++ [name] } ]
    ∧ detect_changes localDir remoteDir
        [("settings.json", FsTree.file { sha256 := "H1", mtime := 100, size := 1 })]
        [("settings.json", FsTree.file { sha256 := "H2", mtime := 200, size := 1 })]
        ["settings.json"] [] state =
      [{ rel_path := "settings.json", change_type := ChangeType.Modified,
         src := remoteDir ++ ["settings.json"], dst := localDir ++ ["settings.json"] }] := by
  constructor
  · unfold detect_changes
    obtain ⟨new, hnew, hnewP⟩ := detectDirChanges_extends localDir remoteDir localFs
      remoteFs state syncDirs
      (detectFileChanges localDir remoteDir localFs remoteFs syncFiles)
    rw [hnew, List.filter_append]
    have hnewF : new.filter (fun c => c.rel_path = name) = [] := by
      rw [List.filter_eq_nil_iff.mpr]
      intro c hc
      simp only [decide_eq_true_eq]
      intro he
      have := hnewP c hc
      rw [he, hslash] at this
      exact Bool.false_ne_true this
    rw [hnewF, List.append_nil]
    clear hnew hnewP hnewF new
    induction syncFiles with
    | nil => simp at hcount
    | cons n rest ih =>
      by_cases hn : n = name
      · subst hn
        have hrest : rest.count n = 0 := by
          rw [List.count_cons] at hcount
          simp at hcount
          omega
        simp only [detectFileChanges, List.filter_append,
          detectFileChanges_filter_zero localDir remoteDir localFs remoteFs rest n hrest,
          List.append_nil]
        rw [fileRecsFor_modified localDir remoteDir localFs remoteFs n ls rs hl hr hsha hmt]
        by_cases hlt : rs.mtime < ls.mtime <;> simp [hlt]
      · have hrest : rest.count name = 1 := by
          rw [List.count_cons] at hcount
          simp [hn] at hcount
          omega
        simp only [detectFileChanges, List.filter_append, ih hrest]
        rw [List.filter_eq_nil_iff.mpr, List.nil_append]
        intro c hc
        have := fileRecsFor_rel localDir remoteDir localFs remoteFs n c hc
        simp [this, hn]
  · rfl

/-- Witness for C4 at the concrete spec scenario (local H1 at mtime 100,
remote H2 at mtime 200): the one record pulls remote to local. -/
theorem c4_modified_newer_wins_witness :
    (detect_changes ["local"] ["remote"]
        [("settings.json", FsTree.file { sha256 := "H1", mtime := 100, size := 1 })]
        [("settings.json", FsTree.file { sha256 := "H2", mtime := 200, size := 1 })]
        ["settings.json"] [] (SyncState.defaultState 0)).filter
      (fun c => c.rel_path = "settings.json") =
    [{ rel_path := "settings.json", change_type := ChangeType.Modified,
       src := ["remote", "settings.json"], dst := ["local", "settings.json"] }] :=
  (c4_modified_newer_wins ["local"] ["remote"]
    [("settings.json", FsTree.file { sha256 := "H1", mtime := 100, size := 1 })]
    [("settings.json", FsTree.file { sha256 := "H2", mtime := 200, size := 1 })]
    ["settings.json"] [] (SyncState.defaultState 0) "settings.json"
    { sha256 := "H1", mtime := 100, size := 1 }
    { sha256 := "H2", mtime := 200, size := 1 }
    (by decide) (by decide) rfl rfl (by decide) (by decide)).1

theorem detectFileChanges_filter_eqmt (localDir remoteDir : Path)
    (localFs remoteFs : Entries) (sf : List String) (name : String)
    (ls rs : FileState)
    (hl : treeLookupFile localFs name = some ls)
    (hr : treeLookupFile remoteFs name = some rs)
    (hmt : ls.mtime = rs.mtime) :
    (detectFileChanges localDir remoteDir localFs remoteFs sf).filter
      (fun c => c.rel_path = name) = [] := by
  induction sf with
  | nil => rfl
  | cons n rest ih =>
    simp only [detectFileChanges, List.filter_append, ih, List.append_nil]
    by_cases hn : n = name
    · subst hn
      rw [fileRecsFor_equal_mtime localDir remoteDir localFs remoteFs n ls rs hl hr hmt]
      rfl
    · rw [List.filter_eq_nil_iff.mpr]
      intro c hc
      have := fileRecsFor_rel localDir remoteDir localFs remoteFs n c hc
      simp [this, hn]

/-- C5: when a tracked file name exists on both sides with differing hashes
but equal mtimes, detection emits no record for that name. -/
theorem c5_equal_mtime_no_record (localDir remoteDir : Path) (localFs remoteFs : Entries)
    (syncFiles syncDirs : List String) (state : SyncState) (name : String)
    (ls rs : FileState)
    (hslash : hasSlash name = false)
    (hl : treeLookupFile localFs name = some ls)
    (hr : treeLookupFile remoteFs name = some rs)
    (hsha : ¬ ls.sha256 = rs.sha256)
    (hmt : ls.mtime = rs.mtime) :
    (detect_changes localDir remoteDir localFs remoteFs syncFiles syncDirs state).filter
      (fun c => c.rel_path = name) = [] := by
  unfold detect_changes
  obtain ⟨new, hnew, hnewP⟩ := detectDirChanges_extends localDir remoteDir localFs
    remoteFs state syncDirs
    (detectFileChanges localDir remoteDir localFs remoteFs syncFiles)
  rw [hnew, List.filter_append]
  have hnewF : new.filter (fun c => c.rel_path = name) = [] := by
    rw [List.filter_eq_nil_iff.mpr]
    intro c hc
    simp only [decide_eq_true_eq]
    intro he
    have := hnewP c hc
    rw [he, hslash] at this
    exact Bool.false_ne_true this
  rw [hnewF, List.append_nil]
  exact detectFileChanges_filter_eqmt localDir remoteDir localFs remoteFs syncFiles
    name ls rs hl hr hmt

/-- Witness for C5: two copies with hashes H1 and H2 but the same mtime 100
produce no record. -/
theorem c5_equal_mtime_no_record_witness :
    (detect_changes ["local"] ["remote"]
        [("settings.json", FsTree.file { sha256 := "H1", mtime := 100, size := 1 })]
        [("settings.json", FsTree.file { sha256 := "H2", mtime := 100, size := 1 })]
        ["settings.json"] [] (SyncState.defaultState 0)).filter
      (fun c => c.rel_path = "settings.json") = [] :=
  c5_equal_mtime_no_record ["local"] ["remote"]
    [("settings.json", FsTree.file { sha256 := "H1", mtime := 100, size := 1 })]
    [("settings.json", FsTree.file { sha256 := "H2", mtime := 100, size := 1 })]
    ["settings.json"] [] (SyncState.defaultState 0) "settings.json"
    { sha256 := "H1", mtime := 100, size := 1 }
    { sha256 := "H2", mtime := 100, size := 1 }
    (by decide) rfl rfl (by decide) rfl

theorem mem_insertA_self [DecidableEq α] (l : List (α × β)) (a : α) (b : β) :
    (a, b) ∈ insertA l a b := by
  induction l with
  | nil => simp [insertA]
  | cons kv rest ih =>
    obtain ⟨k, v⟩ := kv
    by_cases h : k = a <;> simp [insertA, h, ih]

/-- C6: should_flush is false on an empty buffer; true once the batch has
been open at least max_batch_age; and otherwise true exactly when every
pending entry has been quiet for at least the quiet period.  Consequently a
single event flushes after one second of silence under a 1s quiet period,
and a path notified every half second for ten seconds flushes at the 10s
mark under a 10s max batch age. -/
theorem c6_should_flush_spec (b : ChangeBuffer) (q m now : Rat) :
    (b.pending = [] → b.should_flush q m now = false)
    ∧ (¬ b.pending = [] → ∀ f, b.firstChange = some f → m ≤ now - f →
        b.should_flush q m now = true)
    ∧ (¬ b.pending = [] → (∀ f, b.firstChange = some f → now - f < m) →
        (b.should_flush q m now = true ↔ ∀ e ∈ b.pending, q ≤ now - e.2.2))
    ∧ (∀ p : Path, (ChangeBuffer.emptyBuffer.add p true 0).should_flush 1 10 1 = true)
    ∧ (∀ p : Path,
        (([0, 1/2, 1, 3/2, 2, 5/2, 3, 7/2, 4, 9/2, 5, 11/2, 6, 13/2, 7, 15/2, 8,
            17/2, 9, 19/2] : List Rat).foldl
          (fun b t => ChangeBuffer.add b p false t)
          ChangeBuffer.emptyBuffer).should_flush 1 10 10 = true) := by
  obtain ⟨pending, firstChange⟩ := b
  refine ⟨?_, ?_, ?_, ?_, ?_⟩
  · intro h
    have h2 : pending = [] := h
    subst h2
    simp [ChangeBuffer.should_flush]
  · intro hne f hf hm
    subst hf
    cases pending with
    | nil => exact absurd rfl hne
    | cons e es => simp [ChangeBuffer.should_flush, hm]
  · intro hne hlt
    cases pending with
    | nil => exact absurd rfl hne
    | cons e es =>
      cases firstChange with
      | none =>
        simp [ChangeBuffer.should_flush, List.all_eq_true]
      | some f =>
        have := hlt f rfl
        simp [ChangeBuffer.should_flush, not_le.mpr this, List.all_eq_true]
  · intro p
    rw [show ChangeBuffer.emptyBuffer.add p true 0
        = { pending := [(p, (true, 0))], firstChange := some 0 } from by
      simp [ChangeBuffer.add, ChangeBuffer.emptyBuffer, insertA]]
    norm_num [ChangeBuffer.should_flush]
  · intro p
    have hbase : ChangeBuffer.emptyBuffer.add p false 0
        = { pending := [(p, (false, 0))], firstChange := some 0 } := by
      simp [ChangeBuffer.add, ChangeBuffer.emptyBuffer, insertA]
    have hstep : ∀ t0 t : Rat,
        ChangeBuffer.add { pending := [(p, (false, t0))], firstChange := some 0 } p false t
        = { pending := [(p, (false, t))], firstChange := some 0 } := by
      intro t0 t
      simp [ChangeBuffer.add, insertA]
    simp only [List.foldl_cons, List.foldl_nil, hbase, hstep]
    norm_num [ChangeBuffer.should_flush]

/-- Witness for C6: a nonempty buffer whose batch opened 10 seconds ago
flushes under a 10s max batch age even though its entry is not yet quiet. -/
theorem c6_should_flush_spec_witness :
    ChangeBuffer.should_flush
      { pending := [(["settings.json"], (false, 19/2))], firstChange := some 0 }
      1 10 10 = true :=
  (c6_should_flush_spec
    { pending := [(["settings.json"], (false, 19/2))], firstChange := some 0 }
    1 10 10).2.1 (by simp) 0 rfl (by norm_num)

/-- C10: a later add for a pending path overwrites the stored origin tag
(last notification wins), take drains the path with the latest origin only,
and a nonempty batch whose events are all remote is classified as Pull. -/
theorem c10_last_origin_wins (b : ChangeBuffer) (p : Path) (t1 t2 : Rat)
    (hnd : (b.pending.map Prod.fst).Nodup) :
    lookupA ((b.add p true t1).add p false t2).pending p = some (false, t2)
    ∧ (p, false) ∈ ((b.add p true t1).add p false t2).take.1
    ∧ ¬ (p, true) ∈ ((b.add p true t1).add p false t2).take.1
    ∧ (∀ batch : List (Path × Bool), ¬ batch = [] → (∀ e ∈ batch, e.2 = false) →
        classifyDirection batch = SyncDirection.Pull) := by
  have hpend : ((b.add p true t1).add p false t2).pending
      = insertA (insertA b.pending p (true, t1)) p (false, t2) := rfl
  have hnd2 : ((insertA (insertA b.pending p (true, t1)) p (false, t2)).map Prod.fst).Nodup :=
    nodupKeys_insertA _ _ _ (nodupKeys_insertA _ _ _ hnd)
  refine ⟨?_, ?_, ?_, ?_⟩
  · rw [hpend]
    exact lookupA_insertA_self _ _ _
  · have htake : ((b.add p true t1).add p false t2).take.1
        = (insertA (insertA b.pending p (true, t1)) p (false, t2)).map
            (fun e : Path × Bool × Rat => (e.1, e.2.1)) := rfl
    rw [htake]
    exact List.mem_map_of_mem (fun e : Path × Bool × Rat => (e.1, e.2.1))
      (mem_insertA_self _ _ _)
  · have htake : ((b.add p true t1).add p false t2).take.1
        = (insertA (insertA b.pending p (true, t1)) p (false, t2)).map
            (fun e : Path × Bool × Rat => (e.1, e.2.1)) := rfl
    rw [htake]
    intro hmem
    obtain ⟨e, he, hfe⟩ := List.mem_map.mp hmem
    obtain ⟨e1, eb, et⟩ := e
    have h1 : e1 = p := congrArg Prod.fst hfe
    have h2 : eb = true := congrArg Prod.snd hfe
    rw [h1, h2] at he
    have h3 := mem_insertA_eq (insertA b.pending p (true, t1)) p (false, t2) (true, et)
      (nodupKeys_insertA _ _ _ hnd) he
    simp at h3
  · intro batch hne hall
    cases batch with
    | nil => exact absurd rfl hne
    | cons e es =>
      have hl : ((e :: es).any fun x => x.2) = false := by
        rw [List.any_eq_false]
        intro x hx
        simp [hall x hx]
      have hr : ((e :: es).any fun x => ! x.2) = true := by
        rw [List.any_eq_true]
        exact ⟨e, by simp, by simp [hall e (by simp)]⟩
      simp [classifyDirection, hl, hr]

/-- Witness for C10: a path notified first locally then remotely drains as
remote only, and a batch of one remote path classifies as Pull. -/
theorem c10_last_origin_wins_witness :
    lookupA ((ChangeBuffer.emptyBuffer.add ["settings.json"] true 0).add
        ["settings.json"] false 1).pending ["settings.json"] = some (false, 1)
    ∧ ¬ (["settings.json"], true) ∈ ((ChangeBuffer.emptyBuffer.add
        ["settings.json"] true 0).add ["settings.json"] false 1).take.1
    ∧ classifyDirection [(["settings.json"], false)] = SyncDirection.Pull := by
  have h := c10_last_origin_wins ChangeBuffer.emptyBuffer ["settings.json"] 0 1
    (by simp [ChangeBuffer.emptyBuffer])
  exact ⟨h.1, h.2.2.1, h.2.2.2 [(["settings.json"], false)] (by simp) (by simp)⟩

end ClaudeSync
